import Mathlib

/-!
Shallow embedding of the feature-extraction core of the
`alercebroker/late_classifier` repository
(`lc_classifier/features/extractors/sn_parametric_model_computer.py` and
`lc_classifier/features/extractors/harmonics_extractor.py`), together with
theorems settling the frozen claims about it.

Modelling conventions:
* IEEE NaN is modelled by `Option ℝ`, with `none` the NaN sentinel; every
  arithmetic operation propagates `none`, matching IEEE NaN propagation for
  the operations the code uses.
* A Python exception escaping a function is modelled by `Except String`,
  the string holding the exception message.
* The external scipy `curve_fit` routine is an abstract parameter of type
  `CurveFitFn`; `none` models the caught exceptions
  (ValueError, RuntimeError, OptimizeWarning), `some p` a successful fit.
* The external numpy pseudo-inverse solve of the harmonics extractor is an
  abstract parameter of type `SolveFn`.
-/

noncomputable section
namespace LateClassifier

/-- A float value that may be NaN: `none` is the NaN sentinel. -/
abbrev RV := Option ℝ

def vadd : RV → RV → RV
  | some a, some b => some (a + b)
  | _, _ => none

def vsub : RV → RV → RV
  | some a, some b => some (a - b)
  | _, _ => none

def vmul : RV → RV → RV
  | some a, some b => some (a * b)
  | _, _ => none

def vdiv : RV → RV → RV
  | some a, some b => some (a / b)
  | _, _ => none

def vneg : RV → RV
  | some a => some (-a)
  | none => none

def vsq : RV → RV
  | some a => some (a ^ 2)
  | none => none

def vexp : RV → RV
  | some a => some (Real.exp a)
  | none => none

/-- `np.sum` over NaN-able values: any NaN poisons the sum. -/
def vsum (l : List RV) : RV := l.foldr vadd (some 0)

def zipWith3 (f : α → β → γ → δ) : List α → List β → List γ → List δ
  | a :: as, b :: bs, c :: cs => f a b c :: zipWith3 f as bs cs
  | _, _, _ => []

/-- The six model parameters as stored by `SNModelScipy` after a fit:
each may be the NaN sentinel. -/
structure VParams where
  A : RV
  t0 : RV
  gamma : RV
  f : RV
  trise : RV
  tfall : RV

/-- A successful result of the external `scipy.optimize.curve_fit`:
six real parameter values. -/
structure SNParams where
  A : ℝ
  t0 : ℝ
  gamma : ℝ
  f : ℝ
  trise : ℝ
  tfall : ℝ

def vparamsOf (p : SNParams) : VParams :=
  ⟨some p.A, some p.t0, some p.gamma, some p.f, some p.trise, some p.tfall⟩

/-- `pout = [np.nan] * 6`: the all-missing parameter vector. -/
def vparamsNan : VParams := ⟨none, none, none, none, none, none⟩

def paramsListOf (p : VParams) : List RV :=
  [p.A, p.t0, p.gamma, p.f, p.trise, p.tfall]

/-- `model_inference` (sn_parametric_model_computer.py, lines 15-27),
evaluated at one observation time. -/
def model_inference (t : ℝ) (A t0 gamma f trise tfall : RV) : RV :=
  let beta : RV := some (1 / 3)
  let t1 : RV := vadd t0 gamma
  let sigmoid : RV :=
    vdiv (some 1) (vadd (some 1) (vexp (vneg (vmul beta (vsub (some t) t1)))))
  let den : RV := vadd (some 1) (vexp (vneg (vdiv (vsub (some t) t0) trise)))
  vadd
    (vmul (vdiv (vmul (vmul A (vsub (some 1) f))
      (vexp (vneg (vdiv (vsub (some t) t1) tfall)))) den) sigmoid)
    (vmul (vdiv (vmul A (vsub (some 1) (vmul f (vdiv (vsub (some t) t0) gamma)))) den)
      (vsub (some 1) sigmoid))

/-- The external `scipy.optimize.curve_fit`, abstracted at its call
interface: arguments are times, targets, the initial guess `p0`, the
`(lower, upper)` bounds and `ftol`; `none` models a raised
ValueError / RuntimeError / OptimizeWarning (the exceptions the source
catches), `some p` a successful fit. -/
abbrev CurveFitFn :=
  List ℝ → List ℝ → List ℝ → (List ℝ × List ℝ) → ℝ → Option SNParams

/-- `np.argmax`, first index of the maximum (requires nonempty input in
numpy; callers below guard the empty case). -/
def argmaxAux : List ℝ → ℕ → ℕ → ℝ → ℕ
  | [], _, bi, _ => bi
  | x :: xs, i, bi, bv =>
    if bv < x then argmaxAux xs (i + 1) i x else argmaxAux xs (i + 1) bi bv

def argmaxIdx : List ℝ → ℕ
  | [] => 0
  | x :: xs => argmaxAux xs 1 0 x

/-- python builtin `max` over a list (callers guard the empty case). -/
def listMax : List ℝ → ℝ
  | [] => 0
  | t :: ts => ts.foldl max t

/-- `max_fluxpsf = fluxpsf[argmax_fluxpsf]` (lines 40-41). -/
def maxFluxOf (targets : List ℝ) : ℝ := targets.getD (argmaxIdx targets) 0

/-- `A_bounds = [max_fluxpsf / 3.0, max_fluxpsf * 3.0]` (line 42). -/
def aBoundsOf (targets : List ℝ) : ℝ × ℝ :=
  (maxFluxOf targets / 3, maxFluxOf targets * 3)

/-- `A_guess = max(A_bounds[1], max(A_bounds[0], 1.2 * max_fluxpsf))`
(line 50). -/
def aGuessOf (targets : List ℝ) : ℝ :=
  max (aBoundsOf targets).2 (max (aBoundsOf targets).1 (1.2 * maxFluxOf targets))

/-- `gamma_guess = min(gamma_bounds[1], max(gamma_bounds[0], max(times)))`
(lines 52-53). -/
def gammaGuessOf (times : List ℝ) : ℝ := min 100 (max 1 (listMax times))

/-- `trise_guess` (lines 55-57). -/
def triseGuessOf (times targets : List ℝ) : ℝ :=
  min 100 (max 1 (times.getD (argmaxIdx targets) 0 / 2))

/-- The initial guess `p0` (lines 61-62). -/
def p0Of (times targets : List ℝ) : List ℝ :=
  [aGuessOf targets, -5, gammaGuessOf times, 0.5, triseGuessOf times targets, 40]

/-- The `(lower, upper)` bounds passed to `curve_fit` (lines 72-73). -/
def boundsOf (targets : List ℝ) : List ℝ × List ℝ :=
  ([(aBoundsOf targets).1, -50, 1, 0, 1, 1],
   [(aBoundsOf targets).2, 50, 100, 1, 100, 100])

/-- The parameter-fitting part of `SNModelScipy.fit` (lines 65-90):
first attempt with `ftol = A_guess / 20`, on a caught exception one retry
with `ftol = A_guess / 3`, on a second caught exception
`pout = [np.nan] * 6`. -/
def fitPout (cf : CurveFitFn) (times targets : List ℝ) : VParams :=
  match cf times targets (p0Of times targets) (boundsOf targets)
      (aGuessOf targets / 20) with
  | some p => vparamsOf p
  | none =>
    match cf times targets (p0Of times targets) (boundsOf targets)
        (aGuessOf targets / 3) with
    | some p => vparamsOf p
    | none => vparamsNan

/-- `predictions = model_inference(times, *self.parameters)` (lines 91-98). -/
def predictionsOf (p : VParams) (times : List ℝ) : List RV :=
  times.map (fun t => model_inference t p.A p.t0 p.gamma p.f p.trise p.tfall)

/-- `chi = np.sum((predictions - targets) ** 2 / (obs_errors + 0.01) ** 2)`
(line 103). -/
def chiValue (p : VParams) (times targets errors : List ℝ) : RV :=
  vsum (zipWith3
    (fun pr tg er => vdiv (vsq (vsub pr (some tg))) (vsq (some (er + 0.01))))
    (predictionsOf p times) targets errors)

/-- `chi_den = len(predictions) - len(self.parameters)` and the guarded
division (lines 104-108). -/
def chiPerDegree (p : VParams) (times targets errors : List ℝ) : RV :=
  if 1 ≤ ((predictionsOf p times).length : ℤ) - 6 then
    vdiv (chiValue p times targets errors)
      (some ((((predictionsOf p times).length : ℤ) - 6 : ℤ) : ℝ))
  else none

/-- The value `SNModelScipy.fit` leaves behind: the stored parameters and
the returned reduced chi-square. -/
structure FitResult where
  params : VParams
  chi : RV

/-- `SNModelScipy.fit` (lines 34-109). `np.argmax` of an empty target array
and python `max` of an empty time array raise ValueError, modelled by the
error branches; those raises are not caught by the function. -/
def SNModelScipy_fit (cf : CurveFitFn) (times targets obs_errors : List ℝ) :
    Except String FitResult :=
  match targets with
  | [] => .error "attempt to get argmax of an empty sequence"
  | _ :: _ =>
    match times with
    | [] => .error "max() arg is an empty sequence"
    | _ :: _ =>
      let pout := fitPout cf times targets
      .ok ⟨pout, chiPerDegree pout times targets obs_errors⟩

/-- A curve-fit stub that always reports the caught-exception outcome. -/
def cfNone : CurveFitFn := fun _ _ _ _ _ => none

/-! ## The SN parametric model extractor (band-aware driver) -/

/-- One detection row of the input table of `SNParametricModelExtractor`:
`oid` is the index level; `mjd`, `magpsf`, `sigmapsf` are NaN-able floats;
`fid` is the band id. -/
structure SNDet where
  oid : ℕ
  mjd : RV
  magpsf : RV
  sigmapsf : RV
  fid : ℕ

/-- `mag_to_flux` (lines 115-117):
`10 ** (-(mag + 48.6) / 2.5 + 26.0)`. -/
def mag_to_flux (mag : ℝ) : ℝ := (10 : ℝ) ^ (-(mag + 48.6) / 2.5 + 26.0)

/-- `oid_detections[oid_detections.fid == band]` (line 157). -/
def bandDets (band : ℕ) (l : List SNDet) : List SNDet :=
  l.filter (fun d => d.fid == band)

/-- `oid_band_detections[['mjd', 'magpsf', 'sigmapsf']].dropna()`
(lines 159-161): keep only rows where all three selected values are
non-NaN. -/
def dropnaDets (l : List SNDet) : List SNDet :=
  l.filter (fun d => d.mjd.isSome && d.magpsf.isSome && d.sigmapsf.isSome)

/-- `np.min` over a list (callers guard the empty case, where numpy
raises). -/
def listMin : List ℝ → ℝ
  | [] => 0
  | t :: ts => ts.foldl min t

/-- `times = times - np.min(times)` (line 164). -/
def shiftTimes (ts : List ℝ) : List ℝ := ts.map (fun t => t - listMin ts)

/-- `get_features_keys` of `SNParametricModelExtractor` (lines 128-137). -/
def snFeaturesKeys : List String :=
  ["SPM_A", "SPM_t0", "SPM_gamma", "SPM_beta", "SPM_tau_rise", "SPM_tau_fall",
   "SPM_chi"]

/-- Modelled from the spec: `nan_series_in_band`, defined in the
`FeatureExtractorSingleBand` base class (`lc_classifier/features/core/base.py`,
not under src/); per the spec it "returns a FeatureVector whose every value
is the missing-value sentinel", one entry per feature key. -/
def nanSeriesInBand : List RV := List.replicate snFeaturesKeys.length none

/-- `aux_function` inside
`SNParametricModelExtractor.compute_feature_in_one_band_from_group`
(lines 150-181). The `.error` branch models the uncaught ValueError that
`np.min(times)` raises when `dropna` leaves no row. -/
def snAux (cf : CurveFitFn) (band : ℕ) (oidDets : List SNDet) :
    Except String (List RV) :=
  if band ∉ oidDets.map (fun d => d.fid) then .ok nanSeriesInBand
  else
    let valid := dropnaDets (bandDets band oidDets)
    match valid.filterMap (fun d => d.mjd) with
    | [] => .error "zero-size array to reduction operation minimum which has no identity"
    | t :: ts =>
      let times := shiftTimes (t :: ts)
      let mags := valid.filterMap (fun d => d.magpsf)
      let targets := mags.map mag_to_flux
      let sigmas := valid.filterMap (fun d => d.sigmapsf)
      let errors := List.zipWith (fun a b => a - b)
        (List.zipWith (fun m s => mag_to_flux (m - s)) mags sigmas) targets
      match SNModelScipy_fit cf times targets errors with
      | .error e => .error e
      | .ok r => .ok (paramsListOf r.params ++ [r.chi])

/-- `detections.groupby(level=0).apply(aux_function)`: the groups are
visited in turn; a raised exception in any group aborts the whole apply.
(pandas sorts group keys; key order is irrelevant to every property
below, so the key list order of `List.dedup` is kept as is.) -/
def applyGroups (cf : CurveFitFn) (band : ℕ) (dets : List SNDet) :
    List ℕ → Except String (List (ℕ × List RV))
  | [] => .ok []
  | o :: os =>
    match snAux cf band (dets.filter (fun d => d.oid == o)) with
    | .error e => .error e
    | .ok row =>
      match applyGroups cf band dets os with
      | .error e => .error e
      | .ok rows => .ok ((o, row) :: rows)

/-- `SNParametricModelExtractor.compute_feature_in_one_band_from_group`
(lines 147-185): group the detections by object id and apply
`aux_function` to each group. -/
def computeSNFromGroup (cf : CurveFitFn) (band : ℕ) (dets : List SNDet) :
    Except String (List (ℕ × List RV)) :=
  applyGroups cf band dets ((dets.map (fun d => d.oid)).dedup)

/-! ## The harmonics extractor (harmonics_extractor.py) -/

/-- `self.n_harmonics = 7` (line 13). -/
def nHarmonics : ℕ := 7

/-- One detection row of the input table of `HarmonicsExtractor`. -/
structure HDet where
  oid : ℕ
  mjd : ℝ
  magpsf_ml : ℝ
  sigmapsf_ml : ℝ
  fid : ℕ

/-- `np.arctan2 (y, x)`, modelled as the argument of the complex number
`x + y i`; like numpy its value lies in `(-pi, pi]`. -/
def atan2 (y x : ℝ) : ℝ := Complex.arg (x + y * Complex.I)

/-- `coef_mag = np.sqrt(coef_cos ** 2 + coef_sin ** 2)` (line 60). -/
def coefMag (c s : List ℝ) : List ℝ :=
  List.zipWith (fun a b => Real.sqrt (a ^ 2 + b ^ 2)) c s

/-- `coef_phi = np.arctan2(coef_sin, coef_cos)` (line 61). -/
def coefPhi (c s : List ℝ) : List ℝ := List.zipWith (fun a b => atan2 b a) c s

/-- `np.arange(1, self.n_harmonics + 1)` as floats (line 64). -/
def harmonicKs : List ℝ := (List.range nHarmonics).map (fun i => ((i + 1 : ℕ) : ℝ))

/-- `coef_phi - coef_phi[0] * np.arange(1, self.n_harmonics + 1)` (line 64). -/
def normalizePhases (phi : List ℝ) : List ℝ :=
  List.zipWith (fun p k => p - phi.headI * k) phi harmonicKs

def twoPi : ℝ := 2 * Real.pi

/-- numpy float `%` with a positive divisor:
`x % y = x - y * floor (x / y)`. -/
def fmod (x y : ℝ) : ℝ := x - y * (⌊x / y⌋ : ℤ)

/-- `coef_phi = coef_phi[1:] % (2 * np.pi)` (line 65). -/
def reportedPhases (phi : List ℝ) : List ℝ :=
  (normalizePhases phi).tail.map (fun x => fmod x twoPi)

/-- `get_features_keys` (lines 82-86): 7 magnitude names, phase names for
harmonics 2..7, and the mse name. -/
def getFeaturesKeys : List String :=
  ((List.range nHarmonics).map (fun i => "Harmonics_mag_" ++ toString (i + 1)))
    ++ ((List.range' 1 (nHarmonics - 1)).map
      (fun i => "Harmonics_phase_" ++ toString (i + 1)))
    ++ ["Harmonics_mse"]

/-- One row of the design matrix `Omega` (lines 46-50): a constant 1,
the cosine terms at harmonics 1..7 and the sine terms at harmonics 1..7,
evaluated at one observation time. -/
def omegaRow (period : ℝ) (t : ℝ) : List ℝ :=
  1 :: (((List.range nHarmonics).map
      (fun k => Real.cos (2 * Real.pi * (1 / period) * ((k + 1 : ℕ) : ℝ) * t)))
    ++ ((List.range nHarmonics).map
      (fun k => Real.sin (2 * Real.pi * (1 / period) * ((k + 1 : ℕ) : ℝ) * t))))

def dotL (a b : List ℝ) : ℝ := (List.zipWith (fun x y => x * y) a b).sum

def meanL (l : List ℝ) : ℝ := l.sum / l.length

/-- The external `np.matmul(np.linalg.pinv(w_a), w_b)` solve (line 56),
abstracted at its interface: weighted design matrix and weighted target
to coefficient vector. -/
abbrev SolveFn := List (List ℝ) → List ℝ → List ℝ

/-- `coef_cos = coeffs[1:self.n_harmonics + 1]` (line 58). -/
def coefCosOf (coeffs : List ℝ) : List ℝ := (coeffs.drop 1).take nHarmonics

/-- `coef_sin = coeffs[self.n_harmonics + 1:]` (line 59). -/
def coefSinOf (coeffs : List ℝ) : List ℝ := coeffs.drop (nHarmonics + 1)

/-- The raw per-harmonic magnitudes of a coefficient vector (line 60). -/
def coefMagOf (coeffs : List ℝ) : List ℝ :=
  coefMag (coefCosOf coeffs) (coefSinOf coeffs)

/-- The raw per-harmonic phases of a coefficient vector (line 61). -/
def coefPhiOf (coeffs : List ℝ) : List ℝ :=
  coefPhi (coefCosOf coeffs) (coefSinOf coeffs)

/-- `np.concatenate([coef_mag, coef_phi, np.array([mse])])` built from the
raw coefficient vector (lines 58-69). -/
def harmonicsRowOf (coeffs : List ℝ) (mse : ℝ) : List ℝ :=
  coefMagOf coeffs ++ reportedPhases (coefPhiOf coeffs) ++ [mse]

/-- The body of the per-object loop of
`HarmonicsExtractor.compute_feature_in_one_band` (lines 27-74): the
missing-band branch (lines 29-34) and the `except` branch triggered by a
failing period lookup (lines 70-74) both append an all-NaN row. -/
def harmonicsOidRow (solve : SolveFn) (periods : List (ℕ × ℝ)) (band : ℕ)
    (oid : ℕ) (oidDets : List HDet) : List RV :=
  if band ∉ oidDets.map (fun d => d.fid) then
    List.replicate getFeaturesKeys.length none
  else
    let bd := oidDets.filter (fun d => d.fid == band)
    let magnitude := bd.map (fun d => d.magpsf_ml)
    let time := bd.map (fun d => d.mjd)
    let error := bd.map (fun d => d.sigmapsf_ml + 0.01)
    match periods.lookup oid with
    | none => List.replicate getFeaturesKeys.length none
    | some period =>
      let omega := time.map (omegaRow period)
      let inverr := error.map (fun e => 1 / e)
      let wA := List.zipWith (fun ie row => row.map (fun x => ie * x)) inverr omega
      let wB := List.zipWith (fun m ie => m * ie) magnitude inverr
      let coeffs := solve wA wB
      let fitted := omega.map (fun row => dotL row coeffs)
      let mse := meanL (List.zipWith (fun fm m => (fm - m) ^ 2) fitted magnitude)
      (harmonicsRowOf coeffs mse).map some

/-- The `shared_data` keyword mapping: `period` is present when the
`'period'` key was published. -/
structure SharedData where
  period : Option (List (ℕ × ℝ))

/-- Modelled from the spec: `PeriodExtractor.compute_features`
(`lc_classifier/features/extractors/period_extractor.py`, not under src/),
the periodogram-based per-object period estimator used as fallback;
abstracted at its interface, detections to per-object period table. -/
abbrev PeriodogramFn := List HDet → List (ℕ × ℝ)

/-- Lines 16-23 of `compute_feature_in_one_band`: take the periods from
`shared_data['period']` when present, otherwise fall back to the internal
period estimator. The boolean records whether the fallback branch (with
its `logging.info` message) ran. -/
def selectPeriods (kw : Option SharedData) (pg : PeriodogramFn)
    (dets : List HDet) : List (ℕ × ℝ) × Bool :=
  match kw with
  | some sd =>
    match sd.period with
    | some table => (table, false)
    | none => (pg dets, true)
  | none => (pg dets, true)

/-- `HarmonicsExtractor.compute_feature_in_one_band` (lines 15-80):
select the period table, then build one feature row per distinct object
id (`detections.index.unique()`), in order. -/
def harmonicsCompute (solve : SolveFn) (kw : Option SharedData)
    (pg : PeriodogramFn) (band : ℕ) (dets : List HDet) :
    List (ℕ × List RV) :=
  let periods := (selectPeriods kw pg dets).1
  ((dets.map (fun d => d.oid)).dedup).map
    (fun o => (o, harmonicsOidRow solve periods band o
      (dets.filter (fun d => d.oid == o))))

/-! ## Helper lemmas -/

lemma vadd_none (x : RV) : vadd none x = none := rfl

lemma vsum_cons (x : RV) (l : List RV) : vsum (x :: l) = vadd x (vsum l) := rfl

lemma model_inference_nan (t : ℝ) :
    model_inference t none none none none none none = none := rfl

lemma zipWith_getElem_some {α β γ : Type} (f : α → β → γ) :
    ∀ (as : List α) (bs : List β) (n : ℕ) (a : α) (b : β),
      as[n]? = some a → bs[n]? = some b →
      (List.zipWith f as bs)[n]? = some (f a b) := by
  intro as
  induction as with
  | nil => intro bs n a b ha hb; simp at ha
  | cons x xs ih =>
    intro bs n a b ha hb
    cases bs with
    | nil => simp at hb
    | cons y ys =>
      cases n with
      | zero =>
        simp only [List.getElem?_cons_zero, Option.some.injEq] at ha hb
        simp [List.zipWith, ha, hb]
      | succ m =>
        simp only [List.getElem?_cons_succ] at ha hb
        simpa using ih ys m a b ha hb

lemma fmod_mem_range (x y : ℝ) (hy : 0 < y) : 0 ≤ fmod x y ∧ fmod x y < y := by
  have hy0 : y ≠ 0 := ne_of_gt hy
  have h1 : fmod x y = y * Int.fract (x / y) := by
    unfold fmod Int.fract
    rw [mul_sub, mul_div_cancel₀ x hy0]
  constructor
  · rw [h1]
    exact mul_nonneg hy.le (Int.fract_nonneg _)
  · rw [h1]
    calc y * Int.fract (x / y) < y * 1 :=
        (mul_lt_mul_left hy).mpr (Int.fract_lt_one _)
    _ = y := mul_one y

end LateClassifier

namespace LateClassifier

/-! ## Claim theorems -/

/-- C9: when the harmonic fitter is invoked without a "period" entry in the
shared context (no shared data, or the period key absent), it does not
raise: it falls back to the internal period estimator (the Bool records
the informational log of the fallback) and uses the resulting values;
when the period entry is present the estimator is not invoked (the result
does not depend on it). -/
theorem period_fallback_policy (table : List (ℕ × ℝ)) (pg pg2 : PeriodogramFn)
    (solve : SolveFn) (band : ℕ) (dets : List HDet) :
    selectPeriods none pg dets = (pg dets, true) ∧
    selectPeriods (some ⟨none⟩) pg dets = (pg dets, true) ∧
    selectPeriods (some ⟨some table⟩) pg dets = (table, false) ∧
    harmonicsCompute solve (some ⟨some table⟩) pg band dets =
      harmonicsCompute solve (some ⟨some table⟩) pg2 band dets ∧
    harmonicsCompute solve none pg band dets =
      harmonicsCompute solve (some ⟨some (pg dets)⟩) pg band dets :=
  ⟨rfl, rfl, rfl, rfl, rfl⟩

/-- C7: the output feature table of the harmonics extractor has exactly one
row per distinct object id of the input: its keys are the deduplicated
input ids, they contain no duplicate, and an id appears among them exactly
when it appears in the input. -/
theorem one_row_per_distinct_object (solve : SolveFn) (kw : Option SharedData)
    (pg : PeriodogramFn) (band : ℕ) (dets : List HDet) :
    (harmonicsCompute solve kw pg band dets).map Prod.fst =
      (dets.map (fun d => d.oid)).dedup ∧
    ((harmonicsCompute solve kw pg band dets).map Prod.fst).Nodup ∧
    ∀ o : ℕ, o ∈ dets.map (fun d => d.oid) ↔
      o ∈ (harmonicsCompute solve kw pg band dets).map Prod.fst := by
  have hkeys : (harmonicsCompute solve kw pg band dets).map Prod.fst =
      (dets.map (fun d => d.oid)).dedup := by
    simp only [harmonicsCompute, List.map_map]
    have hcomp : (Prod.fst ∘ fun o =>
        (o, harmonicsOidRow solve (selectPeriods kw pg dets).1 band o
          (List.filter (fun d => d.oid == o) dets))) = id := rfl
    rw [hcomp, List.map_id]
  refine ⟨hkeys, ?_, ?_⟩
  · rw [hkeys]; exact List.nodup_dedup _
  · intro o; rw [hkeys]; exact List.mem_dedup.symm

/-- C2 counterexample: at the empty input, `SNModelScipy.fit` raises the
ValueError of `np.argmax` on an empty sequence instead of returning the
NaN sentinel. -/
theorem fit_raises_on_empty_input :
    SNModelScipy_fit cfNone [] [] [] =
      .error "attempt to get argmax of an empty sequence" := rfl

/-- C2 (amended): on every nonempty input, `SNModelScipy.fit` returns; with
at least 7 observations the returned reduced chi-square equals
sum((prediction - target)^2 / (error + 0.01)^2) divided by (number of
observations minus 6), a strictly positive denominator; with fewer than 7
observations the returned value is the NaN sentinel and no division is
performed. -/
theorem fit_reduced_chi_square_formula (cf : CurveFitFn)
    (times targets errors : List ℝ) (h1 : times ≠ []) (h2 : targets ≠ []) :
    (∃ r, SNModelScipy_fit cf times targets errors = .ok r) ∧
    ∀ r, SNModelScipy_fit cf times targets errors = .ok r →
      (7 ≤ times.length →
        r.chi = vdiv (chiValue r.params times targets errors)
          (some (((times.length : ℤ) - 6 : ℤ) : ℝ)) ∧
        (0 : ℤ) < (times.length : ℤ) - 6) ∧
      (times.length < 7 → r.chi = none) := by
  cases targets with
  | nil => exact absurd rfl h2
  | cons g gs =>
    cases times with
    | nil => exact absurd rfl h1
    | cons t ts =>
      have hfit : SNModelScipy_fit cf (t :: ts) (g :: gs) errors =
          .ok ⟨fitPout cf (t :: ts) (g :: gs),
            chiPerDegree (fitPout cf (t :: ts) (g :: gs)) (t :: ts) (g :: gs)
              errors⟩ := rfl
      refine ⟨⟨_, hfit⟩, ?_⟩
      intro r hr
      rw [hfit] at hr
      injection hr with hr
      subst hr
      have hlen : (predictionsOf (fitPout cf (t :: ts) (g :: gs))
          (t :: ts)).length = (t :: ts).length := by
        simp [predictionsOf]
      constructor
      · intro h7
        have hc : (1 : ℤ) ≤ ((predictionsOf (fitPout cf (t :: ts) (g :: gs))
            (t :: ts)).length : ℤ) - 6 := by
          rw [hlen]; omega
        constructor
        · show chiPerDegree _ _ _ _ = _
          rw [chiPerDegree, if_pos hc, hlen]
        · omega
      · intro h7
        have hc : ¬ (1 : ℤ) ≤ ((predictionsOf (fitPout cf (t :: ts) (g :: gs))
            (t :: ts)).length : ℤ) - 6 := by
          rw [hlen]; omega
        show chiPerDegree _ _ _ _ = _
        rw [chiPerDegree, if_neg hc]

/-- C3: the fit first calls the bounded solver with `ftol` equal to the
amplitude guess divided by 20; on a caught failure it retries exactly once
with the guess divided by 3; if both attempts fail, all six stored
parameters are the NaN sentinel as one unit, and a stored parameter vector
is always either all-NaN or a complete successful vector — never partial. -/
theorem fit_two_stage_tolerance_fallback (cf : CurveFitFn)
    (times targets errors : List ℝ) (h1 : times ≠ []) (h2 : targets ≠ []) :
    (∃ r, SNModelScipy_fit cf times targets errors = .ok r ∧
      r.params = fitPout cf times targets) ∧
    (∀ p, cf times targets (p0Of times targets) (boundsOf targets)
        (aGuessOf targets / 20) = some p →
      fitPout cf times targets = vparamsOf p) ∧
    (∀ p, cf times targets (p0Of times targets) (boundsOf targets)
        (aGuessOf targets / 20) = none →
      cf times targets (p0Of times targets) (boundsOf targets)
        (aGuessOf targets / 3) = some p →
      fitPout cf times targets = vparamsOf p) ∧
    (cf times targets (p0Of times targets) (boundsOf targets)
        (aGuessOf targets / 20) = none →
      cf times targets (p0Of times targets) (boundsOf targets)
        (aGuessOf targets / 3) = none →
      fitPout cf times targets = vparamsNan) ∧
    (∀ r, SNModelScipy_fit cf times targets errors = .ok r →
      r.params = vparamsNan ∨ ∃ p, r.params = vparamsOf p) := by
  have hexists : ∃ r, SNModelScipy_fit cf times targets errors = .ok r ∧
      r.params = fitPout cf times targets := by
    cases targets with
    | nil => exact absurd rfl h2
    | cons g gs =>
      cases times with
      | nil => exact absurd rfl h1
      | cons t ts => exact ⟨_, rfl, rfl⟩
  refine ⟨hexists, ?_, ?_, ?_, ?_⟩
  · intro p hp
    simp [fitPout, hp]
  · intro p hp1 hp2
    simp [fitPout, hp1, hp2]
  · intro hp1 hp2
    simp [fitPout, hp1, hp2]
  · intro r hr
    obtain ⟨r2, hr2, hparams⟩ := hexists
    rw [hr2] at hr
    injection hr with hr
    subst hr
    rw [hparams]
    rcases hA : cf times targets (p0Of times targets) (boundsOf targets)
        (aGuessOf targets / 20) with _ | p
    · rcases hB : cf times targets (p0Of times targets) (boundsOf targets)
          (aGuessOf targets / 3) with _ | p
      · left; simp [fitPout, hA, hB]
      · right; exact ⟨p, by simp [fitPout, hA, hB]⟩
    · right; exact ⟨p, by simp [fitPout, hA]⟩

/-- C10: on every nonempty input, if both curve-fit attempts fail so that
all six stored parameters are the NaN sentinel, then the returned reduced
chi-square is the NaN sentinel as well: no finite goodness-of-fit is ever
paired with an all-missing parameter vector. -/
theorem all_nan_params_give_nan_chi (cf : CurveFitFn)
    (times targets errors : List ℝ)
    (h1 : times ≠ []) (h2 : targets ≠ []) (h3 : errors ≠ [])
    (hcf : ∀ a b c d e, cf a b c d e = none) :
    ∀ r, SNModelScipy_fit cf times targets errors = .ok r →
      r.params = vparamsNan ∧ r.chi = none := by
  cases targets with
  | nil => exact absurd rfl h2
  | cons g gs =>
    cases times with
    | nil => exact absurd rfl h1
    | cons t ts =>
      cases errors with
      | nil => exact absurd rfl h3
      | cons e es =>
        intro r hr
        have hpout : fitPout cf (t :: ts) (g :: gs) = vparamsNan := by
          simp [fitPout, hcf]
        have hfit : SNModelScipy_fit cf (t :: ts) (g :: gs) (e :: es) =
            .ok ⟨fitPout cf (t :: ts) (g :: gs),
              chiPerDegree (fitPout cf (t :: ts) (g :: gs)) (t :: ts)
                (g :: gs) (e :: es)⟩ := rfl
        rw [hfit] at hr
        injection hr with hr
        subst hr
        refine ⟨hpout, ?_⟩
        show chiPerDegree _ _ _ _ = _
        rw [hpout, chiPerDegree]
        split
        · have hchi : chiValue vparamsNan (t :: ts) (g :: gs) (e :: es) =
              none := rfl
          rw [hchi]
          rfl
        · rfl

/-- Concrete 7-observation time list used by witnesses. -/
def wTimes : List ℝ := [0, 1, 2, 3, 4, 5, 6]

/-- Concrete 7-observation value list used by witnesses. -/
def wOnes : List ℝ := [1, 1, 1, 1, 1, 1, 1]

theorem fit_reduced_chi_square_formula_witness :
    chiPerDegree (fitPout cfNone wTimes wOnes) wTimes wOnes wOnes =
      vdiv (chiValue (fitPout cfNone wTimes wOnes) wTimes wOnes wOnes)
        (some (((wTimes.length : ℤ) - 6 : ℤ) : ℝ)) ∧
    (0 : ℤ) < (wTimes.length : ℤ) - 6 :=
  ((fit_reduced_chi_square_formula cfNone wTimes wOnes wOnes
    (by simp [wTimes]) (by simp [wOnes])).2 _ rfl).1 (by norm_num [wTimes])

theorem fit_two_stage_tolerance_fallback_witness :
    fitPout cfNone wTimes wOnes = vparamsNan :=
  (fit_two_stage_tolerance_fallback cfNone wTimes wOnes wOnes
    (by simp [wTimes]) (by simp [wOnes])).2.2.2.1 rfl rfl

theorem all_nan_params_give_nan_chi_witness :
    fitPout cfNone wTimes wOnes = vparamsNan ∧
    chiPerDegree (fitPout cfNone wTimes wOnes) wTimes wOnes wOnes = none :=
  all_nan_params_give_nan_chi cfNone wTimes wOnes wOnes (by simp [wTimes])
    (by simp [wOnes]) (by simp [wOnes]) (fun _ _ _ _ _ => rfl) _ rfl

end LateClassifier

namespace LateClassifier

/-! ## C1: batch isolation in the SN parametric extractor -/

lemma mem_dropnaDets_isSome {l : List SNDet} {d : SNDet}
    (h : d ∈ dropnaDets l) :
    d.mjd.isSome ∧ d.magpsf.isSome ∧ d.sigmapsf.isSome := by
  unfold dropnaDets at h
  have hp := (List.mem_filter.mp h).2
  simp only [Bool.and_eq_true] at hp
  exact ⟨hp.1.1, hp.1.2, hp.2⟩

lemma filterMap_field_ne_nil {l : List SNDet} (fld : SNDet → RV)
    (hne : l ≠ []) (h : ∀ d ∈ l, (fld d).isSome) :
    l.filterMap fld ≠ [] := by
  cases l with
  | nil => exact absurd rfl hne
  | cons d rest =>
    obtain ⟨v, hv⟩ := Option.isSome_iff_exists.mp (h d (List.mem_cons_self d rest))
    simp [List.filterMap_cons, hv]

lemma snAux_ok_of (cf : CurveFitFn) (band : ℕ) (l : List SNDet)
    (h : band ∉ l.map (fun d => d.fid) ∨ dropnaDets (bandDets band l) ≠ []) :
    ∃ row, snAux cf band l = .ok row := by
  by_cases hb : band ∉ l.map (fun d => d.fid)
  · exact ⟨nanSeriesInBand, by rw [snAux, if_pos hb]⟩
  · have hvalid : dropnaDets (bandDets band l) ≠ [] := by
      rcases h with h | h
      · exact absurd h hb
      · exact h
    have hmjd : (dropnaDets (bandDets band l)).filterMap (fun d => d.mjd) ≠ [] :=
      filterMap_field_ne_nil _ hvalid
        (fun d hd => (mem_dropnaDets_isSome hd).1)
    have hmag : (dropnaDets (bandDets band l)).filterMap (fun d => d.magpsf) ≠ [] :=
      filterMap_field_ne_nil _ hvalid
        (fun d hd => (mem_dropnaDets_isSome hd).2.1)
    rw [snAux, if_neg hb]
    cases hfm : (dropnaDets (bandDets band l)).filterMap (fun d => d.mjd) with
    | nil => exact absurd hfm hmjd
    | cons t ts =>
      cases hmm : (dropnaDets (bandDets band l)).filterMap (fun d => d.magpsf) with
      | nil => exact absurd hmm hmag
      | cons m ms =>
        simp only [hfm, hmm, shiftTimes, List.map_cons]
        exact ⟨_, rfl⟩

lemma applyGroups_ok (cf : CurveFitFn) (band : ℕ) (dets : List SNDet)
    (os : List ℕ)
    (h : ∀ o ∈ os,
      ∃ row, snAux cf band (dets.filter (fun d => d.oid == o)) = .ok row) :
    ∃ rows, applyGroups cf band dets os = .ok rows ∧ rows.map Prod.fst = os := by
  induction os with
  | nil => exact ⟨[], rfl, rfl⟩
  | cons o os ih =>
    obtain ⟨row, hrow⟩ := h o (List.mem_cons_self o os)
    obtain ⟨rows, hrows, hmap⟩ := ih (fun x hx => h x (List.mem_cons_of_mem o hx))
    refine ⟨(o, row) :: rows, ?_, by simp [hmap]⟩
    simp [applyGroups, hrow, hrows]

/-- C1 (amended): per-object failures inside the curve fit never abort the
batch: whenever every object either lacks detections in the band or keeps
at least one valid (non-NaN) row after filtering, the batch completes with
exactly one row per distinct object id, for any behavior of the external
solver. However (see the counterexample) an object whose band detections
all drop out as NaN makes `np.min` raise on an empty array, aborting the
whole batch. -/
theorem sn_batch_isolates_failures_when_valid (cf : CurveFitFn) (band : ℕ)
    (dets : List SNDet)
    (H : ∀ o ∈ (dets.map (fun d => d.oid)).dedup,
      band ∉ (dets.filter (fun d => d.oid == o)).map (fun d => d.fid) ∨
      dropnaDets (bandDets band (dets.filter (fun d => d.oid == o))) ≠ []) :
    ∃ rows, computeSNFromGroup cf band dets = .ok rows ∧
      rows.map Prod.fst = (dets.map (fun d => d.oid)).dedup :=
  applyGroups_ok cf band dets _ (fun o ho => snAux_ok_of cf band _ (H o ho))

/-- A detection with valid values in band 1 for object 1. -/
def snGoodDet : SNDet := ⟨1, some 0, some 20, some 1, 1⟩

/-- A detection of object 2 in band 1 whose magnitude is NaN: after
`dropna` nothing remains for object 2. -/
def snBadDet : SNDet := ⟨2, some 0, none, some 1, 1⟩

/-- C1 counterexample: a batch with a healthy object and an object whose
only band-1 detection has a NaN magnitude does not return a full-shaped
table with a sentinel row — the whole computation raises the ValueError
of `np.min` over an empty array, aborting the batch for the healthy
object as well. -/
theorem sn_batch_aborts_on_all_nan_object :
    computeSNFromGroup cfNone 1 [snGoodDet, snBadDet] =
      .error "zero-size array to reduction operation minimum which has no identity" :=
  rfl

theorem sn_batch_isolates_failures_when_valid_witness :
    Except.map (fun rows => rows.map Prod.fst)
      (computeSNFromGroup cfNone 1 [snGoodDet]) = .ok [1] := by
  obtain ⟨rows, h1, h2⟩ := sn_batch_isolates_failures_when_valid cfNone 1
    [snGoodDet] (by
      intro o ho
      simp [snGoodDet] at ho
      subst ho
      right
      simp [dropnaDets, bandDets, snGoodDet])
  rw [h1]
  simp only [Except.map]
  rw [h2]
  simp [snGoodDet]

/-! ## C6: the universal missing-band policy -/

/-- C6: for an object with no detections in the requested band, the
harmonics extractor and the SN parametric extractor behave identically:
each produces a feature row every entry of which is the NaN sentinel
(14 entries for harmonics, 7 for the SN model), and no exception escapes
(the SN aux function returns normally). -/
theorem missing_band_gives_all_nan_row (solve : SolveFn)
    (periods : List (ℕ × ℝ)) (band oid : ℕ) (hdets : List HDet)
    (cf : CurveFitFn) (sdets : List SNDet)
    (hh : band ∉ hdets.map (fun d => d.fid))
    (hs : band ∉ sdets.map (fun d => d.fid)) :
    harmonicsOidRow solve periods band oid hdets = List.replicate 14 none ∧
    snAux cf band sdets = .ok (List.replicate 7 none) ∧
    (∀ v ∈ harmonicsOidRow solve periods band oid hdets, v = (none : RV)) ∧
    (∀ row, snAux cf band sdets = .ok row → ∀ v ∈ row, v = (none : RV)) := by
  have h1 : harmonicsOidRow solve periods band oid hdets =
      List.replicate 14 none := by
    rw [harmonicsOidRow, if_pos hh]
    rfl
  have h2 : snAux cf band sdets = .ok (List.replicate 7 none) := by
    rw [snAux, if_pos hs]
    rfl
  refine ⟨h1, h2, ?_, ?_⟩
  · rw [h1]
    intro v hv
    exact List.eq_of_mem_replicate hv
  · intro row hrow v hv
    rw [h2] at hrow
    injection hrow with hrow
    rw [← hrow] at hv
    exact List.eq_of_mem_replicate hv

/-- A detection in band 2 only, for the harmonics extractor. -/
def hDetBand2 : HDet := ⟨7, 0, 0, 0, 2⟩

/-- A detection in band 2 only, for the SN extractor. -/
def snDetBand2 : SNDet := ⟨7, some 0, some 0, some 0, 2⟩

theorem missing_band_gives_all_nan_row_witness :
    harmonicsOidRow (fun _ _ => []) [] 1 7 [hDetBand2] =
      List.replicate 14 none ∧
    snAux cfNone 1 [snDetBand2] = .ok (List.replicate 7 none) := by
  have h := missing_band_gives_all_nan_row (fun _ _ => []) [] 1 7 [hDetBand2]
    cfNone [snDetBand2] (by simp [hDetBand2]) (by simp [snDetBand2])
  exact ⟨h.1, h.2.1⟩

/-! ## C8: flux conversion and time shift -/

lemma foldl_min_map_sub (ts : List ℝ) (c : ℝ) :
    ∀ a : ℝ, (ts.map (fun t => t - c)).foldl min (a - c) = ts.foldl min a - c := by
  induction ts with
  | nil => intro a; simp
  | cons t rest ih =>
    intro a
    simp only [List.map_cons, List.foldl_cons]
    rw [min_sub_sub_right]
    exact ih (min a t)

lemma listMin_shiftTimes (ts : List ℝ) (h : ts ≠ []) :
    listMin (shiftTimes ts) = 0 := by
  cases ts with
  | nil => exact absurd rfl h
  | cons t rest =>
    show listMin ((t :: rest).map (fun x => x - listMin (t :: rest))) = 0
    simp only [List.map_cons, listMin]
    rw [foldl_min_map_sub]
    exact sub_self _

/-- C8: before the transient model fit, every magnitude is converted to
flux by exactly `10 ^ (-(mag + 48.6) / 2.5 + 26)`, and every observation
time is shifted by subtracting the minimum time, so the earliest shifted
observation is at time zero. -/
theorem mag_to_flux_and_time_shift (ts : List ℝ) (m : ℝ) (h : ts ≠ []) :
    mag_to_flux m = (10 : ℝ) ^ (-(m + 48.6) / 2.5 + 26.0) ∧
    listMin (shiftTimes ts) = 0 ∧
    ∀ i : ℕ, i < ts.length →
      (shiftTimes ts)[i]? = some (ts.getD i 0 - listMin ts) := by
  refine ⟨rfl, listMin_shiftTimes ts h, ?_⟩
  intro i hi
  unfold shiftTimes
  rw [List.getElem?_map, List.getElem?_eq_getElem hi, List.getD_eq_getElem ts 0 hi]
  rfl

theorem mag_to_flux_and_time_shift_witness :
    listMin (shiftTimes [3, 1, 2]) = 0 :=
  (mag_to_flux_and_time_shift [3, 1, 2] 5 (by simp)).2.1

/-! ## C4, C5: harmonic amplitudes and relative phases -/

lemma harmonicKs_eq : harmonicKs = [1, 2, 3, 4, 5, 6, 7] := by
  simp only [harmonicKs, nHarmonics,
    show List.range 7 = [0, 1, 2, 3, 4, 5, 6] from rfl,
    List.map_cons, List.map_nil]
  norm_num

lemma coefMag_nonneg : ∀ (c s : List ℝ), ∀ x ∈ coefMag c s, 0 ≤ x := by
  intro c
  induction c with
  | nil => intro s x hx; simp [coefMag] at hx
  | cons a as ih =>
    intro s x hx
    cases s with
    | nil => simp [coefMag] at hx
    | cons b bs =>
      simp only [coefMag, List.zipWith_cons_cons, List.mem_cons] at hx
      rcases hx with h | h
      · rw [h]; exact Real.sqrt_nonneg _
      · exact ih bs x (by simpa [coefMag] using h)

/-- C4: with N = 7 harmonics, the normalized phase of harmonic 1 is zero
and only harmonics 2..N are reported; the reported relative phase of
harmonic k equals the raw phase of harmonic k minus k times the raw phase
of the fundamental, taken modulo 2*pi; the feature row consists of N
magnitudes, N-1 relative phases and one mse scalar, matching the N + (N-1)
+ 1 declared feature keys. -/
theorem harmonics_relative_phase_normalization (coeffs : List ℝ) (mse : ℝ)
    (hlen : coeffs.length = 2 * nHarmonics + 1) :
    (normalizePhases (coefPhiOf coeffs)).head? = some 0 ∧
    (∀ j : ℕ, j < nHarmonics - 1 →
      (reportedPhases (coefPhiOf coeffs))[j]? =
        some (fmod ((coefPhiOf coeffs).getD (j + 1) 0 -
          ((j + 2 : ℕ) : ℝ) * (coefPhiOf coeffs).getD 0 0) twoPi)) ∧
    (coefMagOf coeffs).length = nHarmonics ∧
    (reportedPhases (coefPhiOf coeffs)).length = nHarmonics - 1 ∧
    harmonicsRowOf coeffs mse =
      coefMagOf coeffs ++ reportedPhases (coefPhiOf coeffs) ++ [mse] ∧
    (harmonicsRowOf coeffs mse).length = 2 * nHarmonics ∧
    getFeaturesKeys.length = 2 * nHarmonics := by
  have hn : nHarmonics = 7 := rfl
  have hc : (coefCosOf coeffs).length = nHarmonics := by
    simp only [coefCosOf, List.length_take, List.length_drop, hlen, hn]
    omega
  have hs : (coefSinOf coeffs).length = nHarmonics := by
    simp only [coefSinOf, List.length_drop, hlen, hn]
  have hphi : (coefPhiOf coeffs).length = nHarmonics := by
    simp only [coefPhiOf, coefPhi, List.length_zipWith, hc, hs, min_self]
  have h3 : (coefMagOf coeffs).length = nHarmonics := by
    simp only [coefMagOf, coefMag, List.length_zipWith, hc, hs, min_self]
  have hkslen : harmonicKs.length = nHarmonics := by
    rw [harmonicKs_eq, hn]
    rfl
  have h4 : (reportedPhases (coefPhiOf coeffs)).length = nHarmonics - 1 := by
    simp only [reportedPhases, List.length_map, List.length_tail,
      normalizePhases, List.length_zipWith, hphi, hkslen, min_self]
  have h1 : (normalizePhases (coefPhiOf coeffs)).head? = some 0 := by
    cases hp : coefPhiOf coeffs with
    | nil =>
      rw [hp] at hphi
      rw [hn] at hphi
      simp at hphi
    | cons p rest =>
      simp only [normalizePhases, hp, harmonicKs_eq, List.zipWith_cons_cons]
      simp
  have h2 : ∀ j : ℕ, j < nHarmonics - 1 →
      (reportedPhases (coefPhiOf coeffs))[j]? =
        some (fmod ((coefPhiOf coeffs).getD (j + 1) 0 -
          ((j + 2 : ℕ) : ℝ) * (coefPhiOf coeffs).getD 0 0) twoPi) := by
    intro j hj
    have hj1 : j + 1 < (coefPhiOf coeffs).length := by
      rw [hphi, hn]
      rw [hn] at hj
      omega
    have hj2 : j + 1 < nHarmonics := by
      rw [hn]
      rw [hn] at hj
      omega
    have h0 : 0 < (coefPhiOf coeffs).length := by
      rw [hphi, hn]
      omega
    have hhead : (coefPhiOf coeffs).headI = (coefPhiOf coeffs).getD 0 0 := by
      cases hp : coefPhiOf coeffs with
      | nil =>
        rw [hp] at h0
        simp at h0
      | cons p rest => rfl
    have hks : harmonicKs[j + 1]? = some ((j + 2 : ℕ) : ℝ) := by
      simp only [harmonicKs]
      rw [List.getElem?_map, List.getElem?_range hj2]
      rfl
    have hz : (normalizePhases (coefPhiOf coeffs))[j + 1]? =
        some ((coefPhiOf coeffs).getD (j + 1) 0 -
          (coefPhiOf coeffs).headI * ((j + 2 : ℕ) : ℝ)) := by
      simp only [normalizePhases]
      exact zipWith_getElem_some _ _ _ (j + 1) _ _
        (by rw [List.getElem?_eq_getElem hj1, List.getD_eq_getElem _ 0 hj1])
        hks
    simp only [reportedPhases]
    rw [List.getElem?_map, List.getElem?_tail, hz]
    simp [hhead, mul_comm]
  refine ⟨h1, h2, h3, h4, rfl, ?_, rfl⟩
  simp only [harmonicsRowOf, List.length_append, List.length_singleton, h3, h4,
    hn]

/-- Coefficient vector of length 2 * 7 + 1 used by the C4 witness. -/
def wCoeffs : List ℝ := [0, 0, 0, 0, 0, 0, 0, 0, 0, 0, 0, 0, 0, 0, 0]

theorem harmonics_relative_phase_normalization_witness :
    (normalizePhases (coefPhiOf wCoeffs)).head? = some 0 ∧
    (harmonicsRowOf wCoeffs 0).length = 2 * nHarmonics := by
  have h := harmonics_relative_phase_normalization wCoeffs 0 (by decide)
  exact ⟨h.1, h.2.2.2.2.2.1⟩

/-- C5: every reported harmonic amplitude is the non-negative square root
of the sum of the squared cosine and sine coefficients, and any first
reported relative phase (that of harmonic 2) lies in [0, 2*pi). -/
theorem harmonics_amplitude_nonneg_phase_range (c s : List ℝ) :
    (∀ x ∈ coefMag c s, 0 ≤ x) ∧
    (∀ i : ℕ, i < c.length → i < s.length →
      (coefMag c s)[i]? =
        some (Real.sqrt (c.getD i 0 ^ 2 + s.getD i 0 ^ 2))) ∧
    (∀ x : ℝ, (reportedPhases (coefPhi c s)).head? = some x →
      0 ≤ x ∧ x < twoPi) := by
  refine ⟨coefMag_nonneg c s, ?_, ?_⟩
  · intro i hci hsi
    simp only [coefMag]
    exact zipWith_getElem_some _ c s i _ _
      (by rw [List.getElem?_eq_getElem hci, List.getD_eq_getElem c 0 hci])
      (by rw [List.getElem?_eq_getElem hsi, List.getD_eq_getElem s 0 hsi])
  · intro x hx
    simp only [reportedPhases] at hx
    rw [List.head?_map] at hx
    rcases Option.map_eq_some'.mp hx with ⟨y, hy, hxy⟩
    have h2pi : 0 < twoPi := by
      simp only [twoPi]
      positivity
    rw [← hxy]
    exact fmod_mem_range y twoPi h2pi

theorem harmonics_amplitude_nonneg_phase_range_witness :
    0 ≤ Real.sqrt ((1 : ℝ) ^ 2 + (0 : ℝ) ^ 2) ∧
    0 ≤ fmod 0 twoPi ∧ fmod 0 twoPi < twoPi := by
  have h := harmonics_amplitude_nonneg_phase_range [1, 1] [0, 0]
  have hmem : Real.sqrt ((1 : ℝ) ^ 2 + (0 : ℝ) ^ 2) ∈ coefMag [1, 1] [0, 0] := by
    simp only [coefMag, List.zipWith_cons_cons, List.zipWith_nil]
    exact List.mem_cons_self _ _
  have hphi : coefPhi [1, 1] [0, 0] = [0, 0] := by
    simp [coefPhi, atan2, Complex.arg_one]
  have hhead : (reportedPhases (coefPhi [1, 1] [0, 0])).head? =
      some (fmod 0 twoPi) := by
    rw [hphi]
    simp [reportedPhases, normalizePhases, harmonicKs_eq]
  obtain ⟨hr1, hr2⟩ := h.2.2 _ hhead
  exact ⟨h.1 _ hmem, hr1, hr2⟩

end LateClassifier
